import Mathlib

/-!
Verification of the OAuth credential-refresh core: a shallow embedding of the
security utilities (token masking, rate limiting) and of the oauth-token module
(expiry evaluation, token exchange, secret propagation, refresh orchestration),
together with proofs of the specified properties.

Strings are modelled as `List Char`.  JavaScript numbers that may be `NaN`
are modelled as `Option Int` with `none` standing for `NaN`; every comparison
with `NaN` is `false`, as in JavaScript.  The wall clock (`Date.now()/1000`)
is passed in explicitly as the `now` parameter.  Network responses are passed
in as explicit data so that the response-handling code is a pure function of
them.
-/

/-- The character class `[a-zA-Z0-9_-]` used by the two token regexes. -/
def tokChar (c : Char) : Bool :=
  ('a' ≤ c && c ≤ 'z') || ('A' ≤ c && c ≤ 'Z') || ('0' ≤ c && c ≤ '9') || c = '_' || c = '-'

/-- The regex class `\s`, modelled over the ASCII whitespace characters. -/
def wsChar (c : Char) : Bool :=
  c = ' ' || c = '\t' || c = '\n' || c = '\r' || c = '\x0b' || c = '\x0c'

/-- `startsWithC pat l` holds when `pat` is a prefix of `l`. -/
def startsWithC : List Char → List Char → Bool
  | [], _ => true
  | _ :: _, [] => false
  | p :: ps, c :: cs => p = c && startsWithC ps cs

/-- `containsSub pat l` holds when `pat` occurs as a contiguous substring of `l`. -/
def containsSub (pat : List Char) : List Char → Bool
  | [] => startsWithC pat []
  | c :: cs => startsWithC pat (c :: cs) || containsSub pat cs

/-- Matcher for the regex `pfx[a-zA-Z0-9_-]+` anchored at the head of `l`
(the prefix literal followed by a greedy, non-empty run of class characters).
Returns the length of the match. -/
def tryTok (pfx : List Char) (l : List Char) : Option Nat :=
  if startsWithC pfx l then
    let r := ((l.drop pfx.length).takeWhile tokChar).length
    if r = 0 then none else some (pfx.length + r)
  else none

/-- Whether a (possibly truncated) match of `pfx[a-zA-Z0-9_-]+` starts at the
head of `l`: the prefix literal followed by at least one class character.
`tryTok` succeeds exactly when this holds. -/
def tokHit (pfx l : List Char) : Bool :=
  startsWithC pfx l &&
    (match l.drop pfx.length with
     | [] => false
     | c :: _ => tokChar c)

/-- A well-behaved anchored matcher: every match is non-empty and no longer
than the text. -/
def matcherOK (m : List Char → Option Nat) : Prop :=
  ∀ l n, m l = some n → 1 ≤ n ∧ n ≤ l.length

/-- The regex class `[^"]`. -/
def nqChar (c : Char) : Bool := !decide (c = '"')

/-- Continue a parse only when the text starts with a quote. -/
def onQuote (cont : List Char → Option Nat) : List Char → Option Nat
  | '"' :: r2 => cont r2
  | _ => none

/-- Matcher for the `\s*"[^"]+"` tail of the JSON-fragment regexes, anchored
at the head of `l`: a greedy whitespace run, an opening quote, a greedy
non-empty run of non-quote characters, and a closing quote.  Returns the
length of the match. -/
def tryJsonTail (l : List Char) : Option Nat :=
  onQuote
    (fun r2 =>
      if (r2.takeWhile nqChar).length = 0 then none
      else
        onQuote
          (fun _ => some ((l.takeWhile wsChar).length + 1 + (r2.takeWhile nqChar).length + 1))
          (r2.dropWhile nqChar))
    (l.dropWhile wsChar)

/-- Matcher for the regex `key\s*"[^"]+"` anchored at the head of `l`, where
`key` is a literal such as `"access_token":`.  Returns the length of the
match. -/
def tryJson (key : List Char) (l : List Char) : Option Nat :=
  if startsWithC key l then
    match tryJsonTail (l.drop key.length) with
    | some n => some (key.length + n)
    | none => none
  else none

/-- Global regex replacement, as in `String.prototype.replace` with the `g`
flag: scan left to right, replace each (leftmost, greedy) match by `repl`,
and resume scanning after the replaced match.  `m l` returns the length of a
match anchored at the head of `l`, if any.  The fuel argument makes the
recursion structural; `fuel ≥ l.length` is always sufficient because every
match is non-empty. -/
def scanWith (m : List Char → Option Nat) (repl : List Char) : Nat → List Char → List Char
  | 0, l => l
  | _ + 1, [] => []
  | f + 1, c :: cs =>
    match m (c :: cs) with
    | some n => repl ++ scanWith m repl f ((c :: cs).drop n)
    | none => c :: scanWith m repl f cs

/-- `l.replace(/m/g, repl)`. -/
def replaceAll (m : List Char → Option Nat) (repl : List Char) (l : List Char) : List Char :=
  scanWith m repl l.length l

def accTokPat : List Char := "sk-ant-".toList

def refTokPat : List Char := "refresh_".toList

def accessMarker : List Char := "[ACCESS_TOKEN_REDACTED]".toList

def refreshMarker : List Char := "[REFRESH_TOKEN_REDACTED]".toList

def accJsonKey : List Char := "\"access_token\":".toList

def refJsonKey : List Char := "\"refresh_token\":".toList

def accJsonRepl : List Char := "\"access_token\": \"[REDACTED]\"".toList

def refJsonRepl : List Char := "\"refresh_token\": \"[REDACTED]\"".toList

/-- `.replace(/sk-ant-[a-zA-Z0-9_-]+/g, "[ACCESS_TOKEN_REDACTED]")` -/
def maskAccessTok (l : List Char) : List Char :=
  replaceAll (tryTok accTokPat) accessMarker l

/-- `.replace(/refresh_[a-zA-Z0-9_-]+/g, "[REFRESH_TOKEN_REDACTED]")` -/
def maskRefreshTok (l : List Char) : List Char :=
  replaceAll (tryTok refTokPat) refreshMarker l

/-- `.replace(/"access_token":\s*"[^"]+"/g, '"access_token": "[REDACTED]"')` -/
def maskAccessJson (l : List Char) : List Char :=
  replaceAll (tryJson accJsonKey) accJsonRepl l

/-- `.replace(/"refresh_token":\s*"[^"]+"/g, '"refresh_token": "[REDACTED]"')` -/
def maskRefreshJson (l : List Char) : List Char :=
  replaceAll (tryJson refJsonKey) refJsonRepl l

/-- `SecureLogger.maskSensitiveData`: the four replacements in source order. -/
def maskSensitiveData (l : List Char) : List Char :=
  maskRefreshJson (maskAccessJson (maskRefreshTok (maskAccessTok l)))

/-- `sanitizeErrorMessage` applied to an error message string: the two
token-prefix replacements in source order. -/
def sanitizeErrorMessage (l : List Char) : List Char :=
  maskRefreshTok (maskAccessTok l)

/-- `maskToken(token, visibleChars = 8)`: an empty or short token is fully
redacted, a longer one shows its first `visibleChars` characters. -/
def maskToken (token : List Char) (visibleChars : Nat := 8) : List Char :=
  if token = [] ∨ token.length ≤ visibleChars then "[REDACTED]".toList
  else token.take visibleChars ++ "...[MASKED]".toList

/-- `isTokenExpired(expiresAt, bufferMinutes = 5)`.  `now` is `Date.now()/1000`
in epoch seconds; `expiresAt` is a JavaScript number where `none` models `NaN`
(any comparison with `NaN` is false). -/
def isTokenExpired (now : Int) (expiresAt : Option Int) (bufferMinutes : Int := 5) : Bool :=
  let buffer := bufferMinutes * 60
  match expiresAt with
  | none => false
  | some e => decide (e ≤ now + buffer)

def digitChar (c : Char) : Bool := '0' ≤ c && c ≤ '9'

def digitsToNat (ds : List Char) : Nat :=
  ds.foldl (fun a c => a * 10 + (c.toNat - 48)) 0

/-- JavaScript `parseInt` with radix 10: skip leading whitespace, read an
optional sign and then a non-empty run of decimal digits; `NaN` (here `none`)
when no digit is found. -/
def parseIntJS (s : List Char) : Option Int :=
  let t := s.dropWhile wsChar
  match t with
  | '-' :: r =>
    let ds := r.takeWhile digitChar
    if ds = [] then none else some (-(digitsToNat ds : Int))
  | '+' :: r =>
    let ds := r.takeWhile digitChar
    if ds = [] then none else some ((digitsToNat ds : Int))
  | _ =>
    let ds := t.takeWhile digitChar
    if ds = [] then none else some ((digitsToNat ds : Int))

def natDigitsAux : Nat → Nat → List Char → List Char
  | 0, _, acc => acc
  | f + 1, n, acc =>
    if n < 10 then Char.ofNat (48 + n) :: acc
    else natDigitsAux f (n / 10) (Char.ofNat (48 + n % 10) :: acc)

/-- Decimal digits of a natural number. -/
def natDigits (n : Nat) : List Char := natDigitsAux (n + 1) n []

/-- `Number.prototype.toString` for integers. -/
def intToChars (i : Int) : List Char :=
  if i < 0 then '-' :: natDigits i.natAbs else natDigits i.natAbs

/-- The credential triple held by the orchestrator (`expires_at` may be `NaN`,
modelled as `none`). -/
structure OAuthTokens where
  access_token : List Char
  refresh_token : List Char
  expires_at : Option Int
  deriving DecidableEq

/-- The exchanger's result triple (its `expires_at` is always a number). -/
structure RefreshTokenResponse where
  access_token : List Char
  refresh_token : List Char
  expires_at : Int
  deriving DecidableEq

/-- The JSON body of a successful provider response; `refresh_token` and
`expires_at` may be omitted. -/
structure ProviderTokenData where
  access_token : List Char
  refresh_token : Option (List Char)
  expires_at : Option Int
  deriving DecidableEq

/-- The provider's response to the token-exchange POST. -/
inductive ProviderResult where
  | ok (data : ProviderTokenData)
  | fail (status : Nat) (statusText : List Char) (errorMsg : Option (List Char))
  deriving DecidableEq

/-- JavaScript `a || b` for an optional string (`undefined` and `""` are falsy). -/
def jsOrStr : Option (List Char) → List Char → List Char
  | none, d => d
  | some [], d => d
  | some (c :: cs), _ => c :: cs

/-- JavaScript `a || b` for an optional number (`undefined`, `NaN` and `0` are falsy). -/
def jsOrNum : Option Int → Int → Int
  | none, d => d
  | some e, d => if e = 0 then d else e

/-- The message of the error thrown on a non-ok provider response. -/
def tokenRefreshFailMsg (status : Nat) (statusText : List Char)
    (errorMsg : Option (List Char)) : List Char :=
  "Token refresh failed: ".toList ++ natDigits status ++ [' '] ++ statusText
    ++ " - ".toList ++ jsOrStr errorMsg "Unknown error".toList

/-- `refreshOAuthToken`'s handling of the provider response: throw on non-ok;
otherwise keep the old refresh token when none is returned and default the
expiry to `now + 3600` when none is returned. -/
def refreshOAuthToken (now : Int) (refreshToken : List Char) (resp : ProviderResult) :
    Except (List Char) RefreshTokenResponse :=
  match resp with
  | .fail status statusText errorMsg => .error (tokenRefreshFailMsg status statusText errorMsg)
  | .ok data =>
    .ok { access_token := data.access_token
          refresh_token := jsOrStr data.refresh_token refreshToken
          expires_at := jsOrNum data.expires_at (now + 3600) }

/-- The secret store's answer to the public-key GET. -/
structure PublicKeyResp where
  ok : Bool
  statusText : List Char
  key : List Char
  key_id : List Char
  deriving DecidableEq

/-- One attempted PUT of an encrypted secret field. -/
structure SecretWrite where
  name : List Char
  encrypted_value : List Char
  key_id : List Char
  deriving DecidableEq

/-- The three named secret fields written by `updateGitHubSecrets`. -/
def secretsList (tokens : RefreshTokenResponse) : List (List Char × List Char) :=
  [("CLAUDE_ACCESS_TOKEN".toList, tokens.access_token),
   ("CLAUDE_REFRESH_TOKEN".toList, tokens.refresh_token),
   ("CLAUDE_EXPIRES_AT".toList, intToChars tokens.expires_at)]

/-- The sequential per-field update loop of `updateGitHubSecrets`.  `put`
gives each PUT's outcome (ok flag, statusText); the performed writes are
accumulated and a non-ok PUT throws, ending the loop. -/
def updateSecretsLoop (encrypt : List Char → List Char) (key_id : List Char)
    (put : List Char → Bool × List Char) :
    List (List Char × List Char) → List SecretWrite →
      Except (List Char) Unit × List SecretWrite
  | [], ws => (.ok (), ws)
  | (name, value) :: rest, ws =>
    let w : SecretWrite := ⟨name, encrypt value, key_id⟩
    if (put name).1 then updateSecretsLoop encrypt key_id put rest (ws ++ [w])
    else (.error ("Failed to update secret ".toList ++ name ++ ": ".toList ++ (put name).2),
          ws ++ [w])

/-- `updateGitHubSecrets`: fetch the store's public key (failing before any
write when the fetch is non-ok), then seal and PUT the three fields in order.
The second component is the list of PUTs that were attempted. -/
def updateGitHubSecrets (pk : PublicKeyResp) (encrypt : List Char → List Char → List Char)
    (put : List Char → Bool × List Char) (tokens : RefreshTokenResponse) :
    Except (List Char) Unit × List SecretWrite :=
  if pk.ok then updateSecretsLoop (encrypt pk.key) pk.key_id put (secretsList tokens) []
  else (.error ("Failed to get public key: ".toList ++ pk.statusText), [])

/-- The environment variables consumed by the orchestrator. -/
structure OrchEnv where
  accessToken : Option (List Char)
  refreshToken : Option (List Char)
  expiresAt : Option (List Char)
  githubToken : Option (List Char)
  repository : Option (List Char)
  deriving DecidableEq

/-- JavaScript truthiness of an optional environment string. -/
def envPresent : Option (List Char) → Bool
  | none => false
  | some [] => false
  | some (_ :: _) => true

/-- The manual-update instructions logged when the automatic secret update
fails: the token lines show only the first 8 characters of each token. -/
def manualUpdateLogs (newTokens : RefreshTokenResponse) : List (List Char) :=
  ["Please update the following secrets manually:".toList,
   "CLAUDE_ACCESS_TOKEN: [REDACTED - ".toList ++ newTokens.access_token.take 8 ++ "...]".toList,
   "CLAUDE_REFRESH_TOKEN: [REDACTED - ".toList ++ newTokens.refresh_token.take 8 ++ "...]".toList,
   "CLAUDE_EXPIRES_AT: ".toList ++ intToChars newTokens.expires_at,
   "Check the action summary for secure access to new tokens.".toList]

/-- The outcome of one orchestration run of `handleOAuthTokenRefresh`. -/
inductive OrchOutcome where
  | skipped
  | valid (t : OAuthTokens)
  | refreshed (t : OAuthTokens) (secretsUpdated : Bool) (logs : List (List Char))
  | failed (err : List Char)
  deriving DecidableEq

/-- `handleOAuthTokenRefresh`: skip when any of the three credential variables
is absent; parse the expiry with `parseInt`; return the configured triple when
`isTokenExpired` is false; otherwise exchange, then (when store credentials
are configured) attempt the secret update, catching its failure and logging
the manual-update instructions. -/
def handleOAuthTokenRefresh (now : Int) (env : OrchEnv) (providerResp : ProviderResult)
    (pk : PublicKeyResp) (encrypt : List Char → List Char → List Char)
    (put : List Char → Bool × List Char) : OrchOutcome :=
  if envPresent env.accessToken && envPresent env.refreshToken && envPresent env.expiresAt then
    let accessToken := env.accessToken.getD []
    let refreshToken := env.refreshToken.getD []
    let expiresAtNumber := parseIntJS (env.expiresAt.getD [])
    if isTokenExpired now expiresAtNumber then
      match refreshOAuthToken now refreshToken providerResp with
      | .error e => .failed e
      | .ok newTokens =>
        if envPresent env.githubToken && envPresent env.repository then
          match (updateGitHubSecrets pk encrypt put newTokens).1 with
          | .ok _ =>
            .refreshed ⟨newTokens.access_token, newTokens.refresh_token,
              some newTokens.expires_at⟩ true []
          | .error e =>
            .refreshed ⟨newTokens.access_token, newTokens.refresh_token,
              some newTokens.expires_at⟩ false
              (("Failed to update GitHub secrets automatically: ".toList ++ e)
                :: manualUpdateLogs newTokens)
        else
          .refreshed ⟨newTokens.access_token, newTokens.refresh_token,
            some newTokens.expires_at⟩ false []
    else .valid ⟨accessToken, refreshToken, expiresAtNumber⟩
  else .skipped

/-- `TokenRefreshRateLimit`'s process-wide state. -/
structure RateLimitState where
  lastRefresh : Int
  deriving DecidableEq

/-- `MIN_INTERVAL = 60000` milliseconds. -/
def MIN_INTERVAL : Int := 60000

/-- `TokenRefreshRateLimit.canRefresh`, with `Date.now()` passed in: deny and
keep the state when the minimum interval has not elapsed, otherwise permit
and stamp the current time. -/
def canRefresh (now : Int) (st : RateLimitState) : Bool × RateLimitState :=
  if now - st.lastRefresh < MIN_INTERVAL then (false, st)
  else (true, { lastRefresh := now })

/-- `TokenRefreshRateLimit.getRemainingCooldown`. -/
def getRemainingCooldown (now : Int) (st : RateLimitState) : Int :=
  max 0 (MIN_INTERVAL - (now - st.lastRefresh))

/-- C2: for every numeric `expires_at` and buffer `b`, the expiry evaluator
returns true iff `expires_at ≤ now + b*60` (epoch seconds); with `now = 1000`
and `b = 5`, `expires_at = 1300` is expired and `expires_at = 1301` is not.
The evaluator is a pure function of its arguments. -/
theorem C2_isTokenExpired_iff :
    (∀ (now expiresAt b : Int),
        isTokenExpired now (some expiresAt) b = true ↔ expiresAt ≤ now + b * 60)
    ∧ isTokenExpired 1000 (some 1300) 5 = true
    ∧ isTokenExpired 1000 (some 1301) 5 = false := by
  refine ⟨fun now e b => ?_, by decide, by decide⟩
  simp [isTokenExpired]

/-- C10: `maskToken` returns the fixed string `[REDACTED]` (no character of
the token) for an empty token or one of length at most 8, and exactly the
first 8 characters followed by `...[MASKED]` for a longer token. -/
theorem C10_maskToken_edge :
    (∀ t : List Char, t.length ≤ 8 → maskToken t = "[REDACTED]".toList)
    ∧ (∀ t : List Char, 8 < t.length → maskToken t = t.take 8 ++ "...[MASKED]".toList) := by
  constructor
  · intro t h
    rw [maskToken, if_pos (Or.inr h)]
  · intro t h
    rw [maskToken, if_neg]
    rintro (rfl | h2)
    · simp at h
    · omega

theorem C10_maskToken_edge_witness :
    maskToken "short".toList = "[REDACTED]".toList
    ∧ maskToken "sk-ant-api03-xyz".toList
        = "sk-ant-api03-xyz".toList.take 8 ++ "...[MASKED]".toList :=
  ⟨C10_maskToken_edge.1 _ (by decide), C10_maskToken_edge.2 _ (by decide)⟩

/-- C4: when the provider's response omits a new refresh token, the exchanger's
returned triple reuses the refresh token that was passed in. -/
theorem C4_refresh_reuse :
    ∀ (now : Int) (refreshToken : List Char) (data : ProviderTokenData),
      data.refresh_token = none →
      Except.map (fun t => t.refresh_token) (refreshOAuthToken now refreshToken (.ok data))
        = .ok refreshToken := by
  intro now rt data h
  simp [refreshOAuthToken, Except.map, h, jsOrStr]

theorem C4_refresh_reuse_witness :
    Except.map (fun t => t.refresh_token)
      (refreshOAuthToken 1000 "refresh_oldtok".toList
        (.ok ⟨"sk-ant-new".toList, none, some 5000⟩))
      = .ok "refresh_oldtok".toList :=
  C4_refresh_reuse 1000 _ _ rfl

/-- C5: when the provider omits an expiry the exchanger substitutes
`now + 3600`, and feeding the output triple back through the expiry evaluator
with the same 5-minute buffer at the same `now` yields not-expired. -/
theorem C5_roundtrip_not_expired :
    ∀ (now : Int) (refreshToken : List Char) (data : ProviderTokenData),
      data.expires_at = none →
      Except.map (fun t => (t.expires_at, isTokenExpired now (some t.expires_at) 5))
          (refreshOAuthToken now refreshToken (.ok data))
        = .ok (now + 3600, false) := by
  intro now rt data h
  simp [refreshOAuthToken, Except.map, h, jsOrNum, isTokenExpired,
    decide_eq_false_iff_not]

theorem C5_roundtrip_not_expired_witness :
    Except.map (fun t => (t.expires_at, isTokenExpired 2000 (some t.expires_at) 5))
      (refreshOAuthToken 2000 "refresh_old".toList
        (.ok ⟨"sk-ant-n".toList, some "refresh_new".toList, none⟩))
      = .ok (2000 + 3600, false) :=
  C5_roundtrip_not_expired 2000 _ _ rfl

/-- C6: the rate-limit gate returns false and leaves the recorded state
unchanged when less than the minimum interval has elapsed since the last
permitted call, and otherwise returns true and stamps the current time; in
particular a second call within the interval of a permitted call is denied,
and a call after the interval has elapsed is permitted. -/
theorem C6_rateLimit_gate :
    (∀ (now : Int) (st : RateLimitState),
        now - st.lastRefresh < MIN_INTERVAL → canRefresh now st = (false, st))
    ∧ (∀ (now : Int) (st : RateLimitState),
        MIN_INTERVAL ≤ now - st.lastRefresh → canRefresh now st = (true, ⟨now⟩))
    ∧ (∀ (t1 t2 : Int) (st : RateLimitState),
        (canRefresh t1 st).1 = true → t2 - t1 < MIN_INTERVAL →
          canRefresh t2 (canRefresh t1 st).2 = (false, (canRefresh t1 st).2))
    ∧ (∀ (t1 t2 : Int) (st : RateLimitState),
        (canRefresh t1 st).1 = true → MIN_INTERVAL ≤ t2 - t1 →
          (canRefresh t2 (canRefresh t1 st).2).1 = true) := by
  have hpos : ∀ (now : Int) (st : RateLimitState), now - st.lastRefresh < MIN_INTERVAL →
      canRefresh now st = (false, st) := by
    intro now st h; rw [canRefresh, if_pos h]
  have hneg : ∀ (now : Int) (st : RateLimitState), MIN_INTERVAL ≤ now - st.lastRefresh →
      canRefresh now st = (true, ⟨now⟩) := by
    intro now st h; rw [canRefresh, if_neg (by omega)]
  refine ⟨hpos, hneg, ?_, ?_⟩
  · intro t1 t2 st h1 h2
    by_cases hc : t1 - st.lastRefresh < MIN_INTERVAL
    · rw [hpos t1 st hc] at h1; simp at h1
    · rw [hneg t1 st (by omega)]
      exact hpos t2 ⟨t1⟩ (by simpa using h2)
  · intro t1 t2 st h1 h2
    by_cases hc : t1 - st.lastRefresh < MIN_INTERVAL
    · rw [hpos t1 st hc] at h1; simp at h1
    · rw [hneg t1 st (by omega), hneg t2 ⟨t1⟩ (by simpa using h2)]

theorem C6_rateLimit_gate_witness :
    canRefresh 50000 ⟨0⟩ = (false, ⟨0⟩)
    ∧ canRefresh 60000 ⟨0⟩ = (true, ⟨60000⟩)
    ∧ canRefresh 129999 (canRefresh 70000 ⟨0⟩).2 = (false, (canRefresh 70000 ⟨0⟩).2)
    ∧ (canRefresh 130000 (canRefresh 70000 ⟨0⟩).2).1 = true :=
  ⟨C6_rateLimit_gate.1 50000 ⟨0⟩ (by decide),
   C6_rateLimit_gate.2.1 60000 ⟨0⟩ (by decide),
   C6_rateLimit_gate.2.2.1 70000 129999 ⟨0⟩ (by decide) (by decide),
   C6_rateLimit_gate.2.2.2 70000 130000 ⟨0⟩ (by decide) (by decide)⟩

/-- C7: when the public-key fetch fails, the propagator raises and aborts
before any secret field update: the attempted-write trace is empty. -/
theorem C7_keyfetch_abort :
    ∀ (pk : PublicKeyResp) (encrypt : List Char → List Char → List Char)
      (put : List Char → Bool × List Char) (tokens : RefreshTokenResponse),
      pk.ok = false →
      updateGitHubSecrets pk encrypt put tokens
        = (.error ("Failed to get public key: ".toList ++ pk.statusText), []) := by
  intro pk enc put toks h
  rw [updateGitHubSecrets, h]
  simp

theorem C7_keyfetch_abort_witness :
    updateGitHubSecrets ⟨false, "Unauthorized".toList, "k".toList, "kid".toList⟩
        (fun _ v => v) (fun _ => (true, [])) ⟨"sk-ant-a".toList, "refresh_b".toList, 9999⟩
      = (.error ("Failed to get public key: ".toList ++ "Unauthorized".toList), []) :=
  C7_keyfetch_abort _ _ _ _ rfl

/-- C8: when the exchange succeeds but propagation to the secret store fails,
the failure is caught: the orchestrator still returns the new in-memory triple
(outcome `refreshed`, not `failed`) and logs the manual-update instructions;
and the manual-update instructions depend only on the first 8 characters of
each token (never the full token values). -/
theorem C8_propagation_failure_degraded :
    (∀ (now : Int) (env : OrchEnv) (data : ProviderTokenData) (pk : PublicKeyResp)
       (encrypt : List Char → List Char → List Char) (put : List Char → Bool × List Char)
       (newTokens : RefreshTokenResponse) (e : List Char),
       envPresent env.accessToken = true → envPresent env.refreshToken = true →
       envPresent env.expiresAt = true → envPresent env.githubToken = true →
       envPresent env.repository = true →
       isTokenExpired now (parseIntJS (env.expiresAt.getD [])) = true →
       refreshOAuthToken now (env.refreshToken.getD []) (.ok data) = .ok newTokens →
       (updateGitHubSecrets pk encrypt put newTokens).1 = .error e →
       handleOAuthTokenRefresh now env (.ok data) pk encrypt put
         = .refreshed
             ⟨newTokens.access_token, newTokens.refresh_token, some newTokens.expires_at⟩
             false
             (("Failed to update GitHub secrets automatically: ".toList ++ e)
               :: manualUpdateLogs newTokens))
    ∧ (∀ t u : RefreshTokenResponse,
        t.access_token.take 8 = u.access_token.take 8 →
        t.refresh_token.take 8 = u.refresh_token.take 8 →
        t.expires_at = u.expires_at →
        manualUpdateLogs t = manualUpdateLogs u) := by
  constructor
  · intro now env data pk enc put newT e h1 h2 h3 h4 h5 hexp hex hupd
    rw [handleOAuthTokenRefresh, if_pos (by simp [h1, h2, h3])]
    simp only [hexp, if_true, hex, h4, h5, Bool.and_self, if_pos, hupd]
  · intro t u h1 h2 h3
    simp [manualUpdateLogs, h1, h2, h3]

def c8Env : OrchEnv :=
  { accessToken := some "sk-ant-oldaccess".toList
    refreshToken := some "refresh_oldrefresh".toList
    expiresAt := some "500".toList
    githubToken := some "ghp_x".toList
    repository := some "owner/repo".toList }

def c8Data : ProviderTokenData :=
  ⟨"sk-ant-newaccesstoken".toList, some "refresh_newrefreshtoken".toList, some 999999⟩

def c8NewTokens : RefreshTokenResponse :=
  ⟨"sk-ant-newaccesstoken".toList, "refresh_newrefreshtoken".toList, 999999⟩

def c8Pk : PublicKeyResp := ⟨false, "Bad Gateway".toList, "k".toList, "kid".toList⟩

theorem C8_propagation_failure_degraded_witness :
    handleOAuthTokenRefresh 1000 c8Env (.ok c8Data) c8Pk (fun _ v => v) (fun _ => (true, []))
      = .refreshed
          ⟨c8NewTokens.access_token, c8NewTokens.refresh_token, some c8NewTokens.expires_at⟩
          false
          (("Failed to update GitHub secrets automatically: ".toList
              ++ ("Failed to get public key: ".toList ++ "Bad Gateway".toList))
            :: manualUpdateLogs c8NewTokens)
    ∧ manualUpdateLogs c8NewTokens = manualUpdateLogs c8NewTokens :=
  ⟨C8_propagation_failure_degraded.1 1000 c8Env c8Data c8Pk (fun _ v => v)
      (fun _ => (true, [])) c8NewTokens _
      (by decide) (by decide) (by decide) (by decide) (by decide) (by decide)
      rfl rfl,
   C8_propagation_failure_degraded.2 c8NewTokens c8NewTokens rfl rfl rfl⟩

def c3Env : OrchEnv :=
  { accessToken := some "sk-ant-REDACTED".toList
    refreshToken := some "refresh_validrefresh1234567890".toList
    expiresAt := some "not-a-number".toList
    githubToken := some "ghp_token".toList
    repository := some "owner/repo".toList }

/-- C3 exhibit: with access and refresh tokens present but an unparseable
expiry string, `parseInt` yields `NaN`, the `NaN` comparison inside the expiry
evaluator is false, and the orchestrator returns the credential as `valid`
(with a `NaN` expiry) instead of classifying it as expired and proceeding to
the exchange path — contrary to the required fail-safe-toward-renewal
behaviour.  No exchange happens for any provider response. -/
theorem C3_unparseable_expiry_treated_valid :
    parseIntJS "not-a-number".toList = none
    ∧ isTokenExpired 1000 none = false
    ∧ (∀ (providerResp : ProviderResult) (pk : PublicKeyResp)
         (encrypt : List Char → List Char → List Char) (put : List Char → Bool × List Char),
         handleOAuthTokenRefresh 1000 c3Env providerResp pk encrypt put
           = .valid ⟨"sk-ant-REDACTED".toList,
               "refresh_validrefresh1234567890".toList, none⟩) := by
  refine ⟨by decide, by decide, ?_⟩
  intro resp pk enc put
  rfl

def c1Input : List Char := "\"refresh_token\": \"topsecret123\"".toList

/-- C1 counterexample: on the input `"refresh_token": "topsecret123"`, the
refresh-prefix rule (applied earlier) consumes the key `refresh_token`, so the
JSON refresh-token fragment is not replaced by its fixed redaction marker
`"refresh_token": "[REDACTED]"`: the secret value `topsecret123` survives in
the masked output. -/
theorem C1_refresh_json_not_replaced :
    maskSensitiveData c1Input = "\"[REFRESH_TOKEN_REDACTED]\": \"topsecret123\"".toList
    ∧ containsSub "topsecret123".toList (maskSensitiveData c1Input) = true
    ∧ containsSub refJsonRepl (maskSensitiveData c1Input) = false :=
  ⟨by decide, by decide, by decide⟩

/-! ### List helper lemmas -/

lemma takeWhileNilOfStop {p : Char → Bool} : ∀ {b : List Char}, b.takeWhile p = [] →
    b.dropWhile p = b
  | [], _ => rfl
  | c :: t, h => by
    by_cases hc : p c
    · simp [List.takeWhile_cons, hc] at h
    · simp [List.dropWhile_cons, hc]

lemma takeWhileAppendStop {p : Char → Bool} {b : List Char} (hb : b.takeWhile p = [])
    (a : List Char) : (a ++ b).takeWhile p = a.takeWhile p := by
  induction a with
  | nil => simpa using hb
  | cons c cs ih =>
    by_cases hc : p c
    · simp [List.takeWhile_cons, hc, ih]
    · simp [List.takeWhile_cons, hc]

lemma dropWhileAppendStop {p : Char → Bool} {b : List Char} (hb : b.takeWhile p = [])
    (a : List Char) : (a ++ b).dropWhile p = a.dropWhile p ++ b := by
  induction a with
  | nil => simpa using takeWhileNilOfStop hb
  | cons c cs ih =>
    by_cases hc : p c
    · simp [List.dropWhile_cons, hc, ih]
    · simp [List.dropWhile_cons, hc]

lemma takeWhileAppendAll {p : Char → Bool} {a : List Char} (ha : ∀ c ∈ a, p c = true)
    (b : List Char) : (a ++ b).takeWhile p = a ++ b.takeWhile p := by
  induction a with
  | nil => rfl
  | cons c cs ih =>
    have hc : p c := ha c (by simp)
    simp only [List.cons_append, List.takeWhile_cons, hc, if_true]
    rw [ih (fun x hx => ha x (by simp [hx]))]

lemma dropTakeWhileLength {p : Char → Bool} : ∀ (l : List Char),
    l.drop (l.takeWhile p).length = l.dropWhile p := by
  intro l
  induction l with
  | nil => rfl
  | cons c cs ih =>
    by_cases h : p c
    · simp [List.takeWhile_cons, List.dropWhile_cons, h, ih]
    · simp [List.takeWhile_cons, List.dropWhile_cons, h]

/-! ### `startsWithC` lemmas -/

lemma startsWithC_append_self : ∀ (a b : List Char), startsWithC a (a ++ b) = true
  | [], _ => rfl
  | c :: cs, b => by simp [startsWithC, startsWithC_append_self cs b]

lemma startsWithC_length_le : ∀ {pat l : List Char}, startsWithC pat l = true →
    pat.length ≤ l.length
  | [], _, _ => Nat.zero_le _
  | p :: ps, [], h => by simp [startsWithC] at h
  | p :: ps, c :: cs, h => by
    simp only [startsWithC, Bool.and_eq_true] at h
    simpa using startsWithC_length_le h.2

lemma startsWithC_eq_append {pat l : List Char} (h : startsWithC pat l = true) :
    l = pat ++ l.drop pat.length := by
  induction pat generalizing l with
  | nil => simp
  | cons p ps ih =>
    cases l with
    | nil => simp [startsWithC] at h
    | cons c cs =>
      simp only [startsWithC, Bool.and_eq_true, decide_eq_true_eq] at h
      obtain ⟨rfl, h2⟩ := h
      simpa using ih h2

lemma startsWithC_take_eq {pat x y : List Char}
    (h : x.take pat.length = y.take pat.length) : startsWithC pat x = startsWithC pat y := by
  induction pat generalizing x y with
  | nil => rfl
  | cons p ps ih =>
    cases x with
    | nil =>
      cases y with
      | nil => rfl
      | cons b t => simp at h
    | cons a s =>
      cases y with
      | nil => simp at h
      | cons b t =>
        simp only [List.length_cons, List.take_succ_cons, List.cons.injEq] at h
        obtain ⟨rfl, h2⟩ := h
        simp only [startsWithC, ih h2]

lemma startsWithC_append_of_le {pat a : List Char} (b : List Char)
    (h : pat.length ≤ a.length) : startsWithC pat (a ++ b) = startsWithC pat a :=
  startsWithC_take_eq (List.take_append_of_le_length h)

lemma startsWithC_swap : ∀ {s pfx : List Char} (X : List Char),
    startsWithC pfx (s ++ X) = true → s.length ≤ pfx.length → startsWithC s pfx = true
  | [], _, _, _, _ => rfl
  | a :: s, [], X, _, hlen => by simp at hlen
  | a :: s, p :: ps, X, h, hlen => by
    simp only [List.cons_append, startsWithC, Bool.and_eq_true, decide_eq_true_eq] at h ⊢
    obtain ⟨rfl, h2⟩ := h
    exact ⟨rfl, startsWithC_swap X h2 (by simpa using hlen)⟩

lemma startsWithC_drop : ∀ (j : Nat) {pat t : List Char}, startsWithC pat t = true →
    startsWithC (pat.drop j) (t.drop j) = true
  | 0, _, _, h => h
  | j + 1, [], t, _ => by simp [startsWithC]
  | j + 1, p :: ps, [], h => by simp [startsWithC] at h
  | j + 1, p :: ps, c :: cs, h => by
    simp only [startsWithC, Bool.and_eq_true] at h
    simpa using startsWithC_drop j h.2

lemma startsWithC_append_mono {p q t : List Char} (h : startsWithC (p ++ q) t = true) :
    startsWithC p t = true := by
  induction p generalizing t with
  | nil => rfl
  | cons a ps ih =>
    cases t with
    | nil => simp [startsWithC] at h
    | cons c cs =>
      simp only [List.cons_append, startsWithC, Bool.and_eq_true] at h ⊢
      exact ⟨h.1, ih h.2⟩

/-! ### Matcher bounds -/

lemma tryTok_matcherOK (pfx : List Char) : matcherOK (tryTok pfx) := by
  intro l n h
  unfold tryTok at h
  by_cases hs : startsWithC pfx l
  · simp only [hs, if_true] at h
    by_cases hr : ((l.drop pfx.length).takeWhile tokChar).length = 0
    · simp [hr] at h
    · simp only [hr, if_neg, if_false, Option.some.injEq] at h
      have hb : ((l.drop pfx.length).takeWhile tokChar).length ≤ (l.drop pfx.length).length :=
        (List.takeWhile_sublist _).length_le
      have hl : pfx.length ≤ l.length := startsWithC_length_le hs
      simp only [List.length_drop] at hb
      omega
  · simp [hs] at h

lemma dropWhileLengthEq {p : Char → Bool} (l : List Char) :
    (l.dropWhile p).length = l.length - (l.takeWhile p).length := by
  rw [← dropTakeWhileLength (p := p) l, List.length_drop]

lemma onQuote_eq_some {cont : List Char → Option Nat} {X : List Char} {n : Nat}
    (h : onQuote cont X = some n) : ∃ r2, X = '"' :: r2 ∧ cont r2 = some n := by
  unfold onQuote at h
  split at h
  next r2 => exact ⟨r2, rfl, h⟩
  next => exact absurd h (by simp)

lemma onQuote_quote (cont : List Char → Option Nat) (x : List Char) :
    onQuote cont ('"' :: x) = cont x := rfl

lemma onQuote_cons_ne (cont : List Char → Option Nat) {a : Char} (x : List Char)
    (ha : ¬ a = '"') : onQuote cont (a :: x) = none := by
  unfold onQuote
  split
  next heq =>
    injection heq with h1 h2
    exact absurd h1 ha
  next => rfl

lemma tryJsonTail_bounds {l : List Char} {n : Nat} (h : tryJsonTail l = some n) :
    1 ≤ n ∧ n ≤ l.length := by
  have hwle : (l.takeWhile wsChar).length ≤ l.length := (List.takeWhile_sublist _).length_le
  unfold tryJsonTail at h
  obtain ⟨r2, heq, h2⟩ := onQuote_eq_some h
  by_cases hv0 : (r2.takeWhile nqChar).length = 0
  · rw [if_pos hv0] at h2
    exact absurd h2 (by simp)
  · rw [if_neg hv0] at h2
    obtain ⟨r3, heq2, h3⟩ := onQuote_eq_some h2
    simp only [Option.some.injEq] at h3
    have hvle : (r2.takeWhile nqChar).length ≤ r2.length :=
      (List.takeWhile_sublist _).length_le
    have e1 : (l.dropWhile wsChar).length = r2.length + 1 := by
      rw [heq]; simp
    have e2 : (r2.dropWhile nqChar).length = r3.length + 1 := by
      rw [heq2]; simp
    rw [dropWhileLengthEq] at e1
    rw [dropWhileLengthEq] at e2
    omega

lemma tryJson_matcherOK (key : List Char) : matcherOK (tryJson key) := by
  intro l n h
  unfold tryJson at h
  by_cases hs : startsWithC key l
  · simp only [hs, if_true] at h
    cases ht : tryJsonTail (l.drop key.length) with
    | none => rw [ht] at h; simp at h
    | some k =>
      rw [ht] at h
      simp only [Option.some.injEq] at h
      have hb := tryJsonTail_bounds ht
      have hl : key.length ≤ l.length := startsWithC_length_le hs
      simp only [List.length_drop] at hb
      omega
  · simp [hs] at h

/-! ### `scanWith` and `replaceAll` structure -/

lemma scanWith_fuel {m : List Char → Option Nat} {repl : List Char} (hm : matcherOK m)
    (f : Nat) : ∀ (g : Nat) (l : List Char), l.length ≤ f → l.length ≤ g →
      scanWith m repl f l = scanWith m repl g l := by
  induction f with
  | zero =>
    intro g l h _
    have : l = [] := List.length_eq_zero.mp (Nat.le_zero.mp h)
    subst this
    cases g <;> rfl
  | succ f ih =>
    intro g l h h'
    cases l with
    | nil => cases g <;> rfl
    | cons c cs =>
      cases g with
      | zero => simp at h'
      | succ g =>
        cases hm0 : m (c :: cs) with
        | none =>
          simp only [scanWith, hm0]
          have := ih g cs (by simp at h; omega) (by simp at h'; omega)
          rw [this]
        | some n =>
          have hn := hm _ _ hm0
          simp only [scanWith, hm0]
          have := ih g ((c :: cs).drop n)
            (by simp only [List.length_drop, List.length_cons] at *; omega)
            (by simp only [List.length_drop, List.length_cons] at *; omega)
          rw [this]

lemma replaceAll_cons_none {m : List Char → Option Nat} {repl : List Char} {c : Char}
    {cs : List Char} (h : m (c :: cs) = none) :
    replaceAll m repl (c :: cs) = c :: replaceAll m repl cs := by
  unfold replaceAll
  simp only [List.length_cons, scanWith, h]

lemma replaceAll_eq_some {m : List Char → Option Nat} {repl : List Char} (hm : matcherOK m)
    {l : List Char} {n : Nat} (h : m l = some n) :
    replaceAll m repl l = repl ++ replaceAll m repl (l.drop n) := by
  cases l with
  | nil =>
    have := hm _ _ h
    simp only [List.length_nil] at this
    exact absurd this (by omega)
  | cons c cs =>
    unfold replaceAll
    simp only [List.length_cons, scanWith, h]
    have hn := hm _ _ h
    rw [scanWith_fuel hm cs.length ((c :: cs).drop n).length ((c :: cs).drop n)
      (by simp only [List.length_drop, List.length_cons] at *; omega) le_rfl]

lemma replaceAll_of_none {m : List Char → Option Nat} {repl : List Char} :
    ∀ {l : List Char}, (∀ i, m (l.drop i) = none) → replaceAll m repl l = l := by
  intro l
  induction l with
  | nil => intro _; rfl
  | cons c cs ih =>
    intro h
    rw [replaceAll_cons_none (by simpa using h 0), ih (fun i => by simpa using h (i + 1))]

lemma replaceAll_shape {m : List Char → Option Nat} {repl : List Char} (hm : matcherOK m) :
    ∀ (l : List Char), replaceAll m repl l = l ∨
      ∃ p n, m (l.drop p) = some n ∧
        replaceAll m repl l = l.take p ++ repl ++ replaceAll m repl (l.drop (p + n)) := by
  intro l
  induction l with
  | nil => left; rfl
  | cons c cs ih =>
    cases hm0 : m (c :: cs) with
    | some n =>
      right
      exact ⟨0, n, by simpa using hm0, by rw [replaceAll_eq_some hm hm0]; simp⟩
    | none =>
      rcases ih with h | ⟨p, n, h1, h2⟩
      · left; rw [replaceAll_cons_none hm0, h]
      · right
        refine ⟨p + 1, n, by simpa using h1, ?_⟩
        rw [replaceAll_cons_none hm0, h2]
        have hd : (c :: cs).drop (p + 1 + n) = cs.drop (p + n) := by
          have he : p + 1 + n = (p + n) + 1 := by omega
          rw [he, List.drop_succ_cons]
        rw [hd]
        simp [List.take_succ_cons]

lemma replaceAll_take_cases {m : List Char → Option Nat} {repl : List Char} (hm : matcherOK m) :
    ∀ (l : List Char) (k : Nat), k ≤ repl.length →
      (replaceAll m repl l).take k = l.take k ∨
      ∃ q, q < k ∧ (replaceAll m repl l).take k = l.take q ++ repl.take (k - q) := by
  intro l
  induction l with
  | nil => intro k _; left; rfl
  | cons c cs ih =>
    intro k hk
    cases hm0 : m (c :: cs) with
    | some n =>
      rcases Nat.eq_zero_or_pos k with rfl | hk0
      · left; rfl
      · right
        refine ⟨0, hk0, ?_⟩
        rw [replaceAll_eq_some hm hm0, List.take_append_of_le_length hk]
        simp
    | none =>
      cases k with
      | zero => left; rfl
      | succ k =>
        rw [replaceAll_cons_none hm0]
        rcases ih k (le_trans (Nat.le_succ _) hk) with h | ⟨q, hq, h⟩
        · left; simp [List.take_succ_cons, h]
        · right
          refine ⟨q + 1, by omega, ?_⟩
          have he : k + 1 - (q + 1) = k - q := by omega
          rw [List.take_succ_cons, h, List.take_succ_cons, he, List.cons_append]

/-! ### Token-pattern machinery -/

lemma tryTok_eq_none_iff (pfx l : List Char) : tryTok pfx l = none ↔ tokHit pfx l = false := by
  unfold tryTok tokHit
  by_cases hs : startsWithC pfx l
  · simp only [hs, if_true, Bool.true_and]
    cases hd : l.drop pfx.length with
    | nil => simp
    | cons c t =>
      by_cases hc : tokChar c
      · simp [List.takeWhile_cons, hc]
      · simp [List.takeWhile_cons, hc]
  · simp [hs]

lemma tokHit_cons (p : Char) (ps : List Char) (x : Char) (t : List Char) :
    tokHit (p :: ps) (x :: t) = ((p = x) && tokHit ps t) := by
  unfold tokHit
  simp only [startsWithC, List.length_cons, List.drop_succ_cons, Bool.and_assoc]

lemma tokHit_eq_of_take {pfx x y : List Char}
    (h : x.take (pfx.length + 1) = y.take (pfx.length + 1)) : tokHit pfx x = tokHit pfx y := by
  induction pfx generalizing x y with
  | nil =>
    cases x with
    | nil =>
      cases y with
      | nil => rfl
      | cons b t => simp at h
    | cons a s =>
      cases y with
      | nil => simp at h
      | cons b t =>
        simp only [List.length_nil, Nat.zero_add, List.take_succ_cons, List.take_zero,
          List.cons.injEq, and_true] at h
        subst h
        simp [tokHit, startsWithC]
  | cons p ps ih =>
    cases x with
    | nil =>
      cases y with
      | nil => rfl
      | cons b t => simp at h
    | cons a s =>
      cases y with
      | nil => simp at h
      | cons b t =>
        simp only [List.length_cons, List.take_succ_cons, List.cons.injEq] at h
        obtain ⟨rfl, h2⟩ := h
        rw [tokHit_cons, tokHit_cons, ih h2]

lemma tokHit_append_repl {d : Char} (hd : tokChar d = false) :
    ∀ (a pfx : List Char), (∀ c ∈ pfx, tokChar c = true) → a.length ≤ pfx.length →
      ∀ (rest : List Char), tokHit pfx (a ++ d :: rest) = false
  | [], pfx, hpfx, _, rest => by
    cases pfx with
    | nil => simp [tokHit, startsWithC, hd]
    | cons p ps =>
      rw [List.nil_append, tokHit_cons]
      have hp : tokChar p = true := hpfx p (by simp)
      have hne : p ≠ d := fun he => by rw [he, hd] at hp; exact Bool.false_ne_true hp
      simp [hne]
  | x :: a, [], hpfx, ha, rest => by simp at ha
  | x :: a, p :: ps, hpfx, ha, rest => by
    rw [List.cons_append, tokHit_cons,
      tokHit_append_repl hd a ps (fun c hc => hpfx c (by simp [hc])) (by simpa using ha) rest]
    simp

lemma tryTok_none_cons_scan {m : List Char → Option Nat} (hm : matcherOK m)
    {repl : List Char} {d : Char} {repl' : List Char} (hrepl : repl = d :: repl')
    (hd : tokChar d = false)
    {pfx : List Char} (hpfx : ∀ c ∈ pfx, tokChar c = true)
    (hlen : pfx.length ≤ repl.length)
    {c : Char} {cs : List Char}
    (h : tryTok pfx (c :: cs) = none) :
    tryTok pfx (c :: replaceAll m repl cs) = none := by
  rw [tryTok_eq_none_iff] at h ⊢
  rcases replaceAll_take_cases hm cs pfx.length hlen with hcase | ⟨q, hq, hcase⟩
  · have ht : (c :: replaceAll m repl cs).take (pfx.length + 1)
        = (c :: cs).take (pfx.length + 1) := by
      simp only [List.take_succ_cons, hcase]
    rw [tokHit_eq_of_take ht]
    exact h
  · have hrt : repl.take (pfx.length - q) = d :: repl'.take (pfx.length - q - 1) := by
      rw [hrepl]
      have he : pfx.length - q = (pfx.length - q - 1) + 1 := by omega
      rw [he, List.take_succ_cons]
      simp
    set W : List Char := (c :: cs.take q) ++ d :: repl'.take (pfx.length - q - 1) with hW
    have hWlen : W.length ≤ pfx.length + 1 := by
      have h1 : (cs.take q).length ≤ q := by
        simp
      have h2 : (repl'.take (pfx.length - q - 1)).length ≤ pfx.length - q - 1 := by
        simp
      simp only [hW, List.length_append, List.length_cons]
      omega
    have ht : (c :: replaceAll m repl cs).take (pfx.length + 1) = W.take (pfx.length + 1) := by
      rw [List.take_of_length_le hWlen, hW]
      simp only [List.take_succ_cons, hcase, hrt, List.cons_append]
    rw [tokHit_eq_of_take ht]
    exact tokHit_append_repl hd (c :: cs.take q) pfx hpfx
      (by
        have : (cs.take q).length ≤ q := by simp
        simp only [List.length_cons]
        omega)
      _

/-- Core absence lemma: scanning with a matcher `m` and replacement `repl`
produces output free of `pfx[a-zA-Z0-9_-]+` matches, provided (i) every
position of the input where `m` finds no match is also free of a token match
(`hnone`), (ii) the replacement's head is not a class character, (iii) no
suffix of the replacement aligns with the token prefix in either direction. -/
lemma tokFree_replaceAll_aux {m : List Char → Option Nat} (hm : matcherOK m)
    {repl : List Char} {d : Char} {repl' : List Char} (hrepl : repl = d :: repl')
    (hd : tokChar d = false)
    {pfx : List Char} {p0 : Char} {ps0 : List Char} (hpfx0 : pfx = p0 :: ps0)
    (hpfx : ∀ c ∈ pfx, tokChar c = true)
    (hlen : pfx.length ≤ repl.length)
    (hA : ∀ i, i < repl.length → startsWithC pfx (repl.drop i) = false)
    (hB : ∀ i, i < repl.length → startsWithC (repl.drop i) pfx = false) :
    ∀ (N : Nat) (l : List Char), l.length ≤ N →
      (∀ i, m (l.drop i) = none → tryTok pfx (l.drop i) = none) →
      ∀ j, tryTok pfx ((replaceAll m repl l).drop j) = none := by
  intro N
  induction N with
  | zero =>
    intro l hl _ j
    have hnil : l = [] := List.length_eq_zero.mp (Nat.le_zero.mp hl)
    subst hnil
    rw [hpfx0]
    simp [replaceAll, scanWith, tryTok, startsWithC]
  | succ N ih =>
    intro l hl hnone j
    cases l with
    | nil =>
      rw [hpfx0]
      simp [replaceAll, scanWith, tryTok, startsWithC]
    | cons c cs =>
      cases hm0 : m (c :: cs) with
      | none =>
        rw [replaceAll_cons_none hm0]
        cases j with
        | zero =>
          rw [List.drop_zero]
          exact tryTok_none_cons_scan hm hrepl hd hpfx hlen
            (by simpa using hnone 0 (by simpa using hm0))
        | succ j =>
          rw [List.drop_succ_cons]
          refine ih cs (by simp only [List.length_cons] at hl; omega) ?_ j
          intro i hi
          have := hnone (i + 1) (by simpa using hi)
          simpa using this
      | some n =>
        have hn := hm _ _ hm0
        rw [replaceAll_eq_some hm hm0]
        by_cases hj : j < repl.length
        · rw [List.drop_append_of_le_length (le_of_lt hj)]
          rw [tryTok_eq_none_iff]
          unfold tokHit
          by_cases hsw : startsWithC pfx (repl.drop j ++ replaceAll m repl ((c :: cs).drop n))
          · exfalso
            by_cases hlen2 : pfx.length ≤ (repl.drop j).length
            · have hA2 : startsWithC pfx (repl.drop j) = true := by
                rw [← startsWithC_append_of_le _ hlen2]; exact hsw
              rw [hA j hj] at hA2
              exact Bool.false_ne_true hA2
            · have hB2 : startsWithC (repl.drop j) pfx = true :=
                startsWithC_swap _ hsw (by omega)
              rw [hB j hj] at hB2
              exact Bool.false_ne_true hB2
          · simp only [Bool.and_eq_false_iff]
            left
            exact Bool.not_eq_true _ ▸ (Bool.eq_false_iff.mpr hsw)
        · have hj2 : j = repl.length + (j - repl.length) := by omega
          rw [hj2, List.drop_append]
          refine ih ((c :: cs).drop n)
            (by simp only [List.length_drop, List.length_cons] at *; omega) ?_ _
          intro i hi
          rw [List.drop_drop] at hi ⊢
          exact hnone (n + i) hi

/-! ### Masking pipeline: absence of token-shaped substrings -/

lemma maskAccessTok_accFree (l : List Char) :
    ∀ j, tryTok accTokPat ((maskAccessTok l).drop j) = none :=
  tokFree_replaceAll_aux (tryTok_matcherOK accTokPat)
    (show accessMarker = '[' :: "ACCESS_TOKEN_REDACTED]".toList by decide)
    (by decide)
    (show accTokPat = 's' :: "k-ant-".toList by decide)
    (by decide) (by decide) (by decide) (by decide)
    l.length l le_rfl (fun _ h => h)

lemma maskRefreshTok_refFree (l : List Char) :
    ∀ j, tryTok refTokPat ((maskRefreshTok l).drop j) = none :=
  tokFree_replaceAll_aux (tryTok_matcherOK refTokPat)
    (show refreshMarker = '[' :: "REFRESH_TOKEN_REDACTED]".toList by decide)
    (by decide)
    (show refTokPat = 'r' :: "efresh_".toList by decide)
    (by decide) (by decide) (by decide) (by decide)
    l.length l le_rfl (fun _ h => h)

lemma maskRefreshTok_pres_accFree {l : List Char}
    (hf : ∀ j, tryTok accTokPat (l.drop j) = none) :
    ∀ j, tryTok accTokPat ((maskRefreshTok l).drop j) = none :=
  tokFree_replaceAll_aux (tryTok_matcherOK refTokPat)
    (show refreshMarker = '[' :: "REFRESH_TOKEN_REDACTED]".toList by decide)
    (by decide)
    (show accTokPat = 's' :: "k-ant-".toList by decide)
    (by decide) (by decide) (by decide) (by decide)
    l.length l le_rfl (fun i _ => hf i)

lemma maskAccessJson_pres_accFree {l : List Char}
    (hf : ∀ j, tryTok accTokPat (l.drop j) = none) :
    ∀ j, tryTok accTokPat ((maskAccessJson l).drop j) = none :=
  tokFree_replaceAll_aux (tryJson_matcherOK accJsonKey)
    (show accJsonRepl = '"' :: "access_token\": \"[REDACTED]\"".toList by decide)
    (by decide)
    (show accTokPat = 's' :: "k-ant-".toList by decide)
    (by decide) (by decide) (by decide) (by decide)
    l.length l le_rfl (fun i _ => hf i)

lemma maskAccessJson_pres_refFree {l : List Char}
    (hf : ∀ j, tryTok refTokPat (l.drop j) = none) :
    ∀ j, tryTok refTokPat ((maskAccessJson l).drop j) = none :=
  tokFree_replaceAll_aux (tryJson_matcherOK accJsonKey)
    (show accJsonRepl = '"' :: "access_token\": \"[REDACTED]\"".toList by decide)
    (by decide)
    (show refTokPat = 'r' :: "efresh_".toList by decide)
    (by decide) (by decide) (by decide) (by decide)
    l.length l le_rfl (fun i _ => hf i)

/-- The `"refresh_token":` literal contains a `refresh_`-prefix match, so a
text free of refresh-prefix matches contains no match of the JSON
refresh-token regex at any position. -/
lemma tryJson_refKey_none_of_refFree {l : List Char}
    (hf : ∀ j, tryTok refTokPat (l.drop j) = none) :
    ∀ i, tryJson refJsonKey (l.drop i) = none := by
  intro i
  cases hj : tryJson refJsonKey (l.drop i) with
  | none => rfl
  | some n =>
    exfalso
    have hsw : startsWithC refJsonKey (l.drop i) = true := by
      by_contra hc
      unfold tryJson at hj
      simp [Bool.not_eq_true] at hc
      simp [hc] at hj
    have hkey : refJsonKey = '"' :: (refTokPat ++ 't' :: "oken\":".toList) := by decide
    rw [hkey] at hsw
    cases hd : l.drop i with
    | nil => rw [hd] at hsw; simp [startsWithC] at hsw
    | cons a rest =>
      rw [hd] at hsw
      simp only [startsWithC, Bool.and_eq_true, decide_eq_true_eq] at hsw
      obtain ⟨rfl, hsw2⟩ := hsw
      have hrest : l.drop (i + 1) = rest := by
        have hh : l.drop (i + 1) = (l.drop i).drop 1 := by
          rw [List.drop_drop]
        rw [hh, hd, List.drop_succ_cons, List.drop_zero]
      have h1 : startsWithC refTokPat rest = true := startsWithC_append_mono hsw2
      have h2 : startsWithC ('t' :: "oken\":".toList) (rest.drop refTokPat.length) = true := by
        have hx := startsWithC_drop refTokPat.length hsw2
        rwa [List.drop_left] at hx
      have hhit : tokHit refTokPat rest = true := by
        unfold tokHit
        rw [h1, Bool.true_and]
        cases hr : rest.drop refTokPat.length with
        | nil => rw [hr] at h2; simp [startsWithC] at h2
        | cons b t =>
          rw [hr] at h2
          simp only [startsWithC, Bool.and_eq_true, decide_eq_true_eq] at h2
          obtain ⟨rfl, _⟩ := h2
          exact (by decide : tokChar 't' = true)
      have hcontra := hf (i + 1)
      rw [hrest, tryTok_eq_none_iff, hhit] at hcontra
      exact Bool.false_ne_true hcontra.symm

/-- On any text free of refresh-prefix matches, the fourth replacement finds
nothing and is the identity. -/
lemma maskRefreshJson_id {l : List Char}
    (hf : ∀ j, tryTok refTokPat (l.drop j) = none) : maskRefreshJson l = l := by
  unfold maskRefreshJson
  exact replaceAll_of_none (tryJson_refKey_none_of_refFree hf)

lemma mask_eq_three (l : List Char) :
    maskSensitiveData l = maskAccessJson (maskRefreshTok (maskAccessTok l)) := by
  unfold maskSensitiveData
  exact maskRefreshJson_id
    (maskAccessJson_pres_refFree (maskRefreshTok_refFree (maskAccessTok l)))

lemma mask_accFree (l : List Char) :
    ∀ j, tryTok accTokPat ((maskSensitiveData l).drop j) = none := by
  rw [mask_eq_three]
  exact maskAccessJson_pres_accFree
    (maskRefreshTok_pres_accFree (maskAccessTok_accFree l))

lemma mask_refFree (l : List Char) :
    ∀ j, tryTok refTokPat ((maskSensitiveData l).drop j) = none := by
  rw [mask_eq_three]
  exact maskAccessJson_pres_refFree (maskRefreshTok_refFree (maskAccessTok l))

/-! ### Idempotence of the JSON-fragment replacement -/

lemma tryJsonTail_cong {V : List Char} (hV0 : V ≠ []) (hVnq : ∀ c ∈ V, nqChar c = true)
    (e b1 b2 : List Char) :
    (tryJsonTail (e ++ ('"' :: (V ++ '"' :: b1))) = none ↔
     tryJsonTail (e ++ ('"' :: (V ++ '"' :: b2))) = none) := by
  have hqw : wsChar '"' = false := by decide
  have hqnq : nqChar '"' = false := by decide
  have hMws : ∀ b : List Char, (('"' :: (V ++ '"' :: b)) : List Char).takeWhile wsChar = [] := by
    intro b
    simp [List.takeWhile_cons, hqw]
  have hMnq : ∀ b : List Char, (('"' :: (V ++ '"' :: b)) : List Char).takeWhile nqChar = [] := by
    intro b
    simp [List.takeWhile_cons, hqnq]
  have hv : ∀ b : List Char, ((V ++ '"' :: b).takeWhile nqChar) = V := by
    intro b
    rw [takeWhileAppendAll hVnq]
    simp [List.takeWhile_cons, hqnq]
  have hvd : ∀ b : List Char, ((V ++ '"' :: b).dropWhile nqChar) = '"' :: b := by
    intro b
    rw [dropWhileAppendStop (by simp [List.takeWhile_cons, hqnq])]
    rw [List.dropWhile_eq_nil_iff.mpr (fun x hx => by simp [hVnq x hx])]
    simp
  unfold tryJsonTail
  rw [dropWhileAppendStop (hMws b1), dropWhileAppendStop (hMws b2)]
  cases hE : e.dropWhile wsChar with
  | nil =>
    simp only [List.nil_append, onQuote_quote]
    rw [hv b1, hv b2, hvd b1, hvd b2]
    have hlen0 : ¬ V.length = 0 := by
      intro hc
      exact hV0 (List.length_eq_zero.mp hc)
    rw [if_neg hlen0, if_neg hlen0, onQuote_quote, onQuote_quote]
    simp
  | cons a E =>
    simp only [List.cons_append]
    by_cases ha : a = '"'
    · subst ha
      rw [onQuote_quote, onQuote_quote]
      rw [takeWhileAppendStop (hMnq b1), takeWhileAppendStop (hMnq b2),
          dropWhileAppendStop (hMnq b1), dropWhileAppendStop (hMnq b2)]
      by_cases hv0 : (E.takeWhile nqChar).length = 0
      · rw [if_pos hv0, if_pos hv0]
      · rw [if_neg hv0, if_neg hv0]
        cases hE2 : E.dropWhile nqChar with
        | nil =>
          simp only [List.nil_append, onQuote_quote]
          simp
        | cons a2 E2 =>
          simp only [List.cons_append]
          by_cases ha2 : a2 = '"'
          · subst ha2
            rw [onQuote_quote, onQuote_quote]
            simp
          · rw [onQuote_cons_ne _ _ ha2, onQuote_cons_ne _ _ ha2]
    · rw [onQuote_cons_ne _ _ ha, onQuote_cons_ne _ _ ha]

lemma tryJson_none_of_not_sw {key l : List Char} (hsw : ¬ startsWithC key l = true) :
    tryJson key l = none := by
  unfold tryJson
  rw [if_neg hsw]

lemma tryJson_sw {key l : List Char} {n : Nat} (h : tryJson key l = some n) :
    startsWithC key l = true := by
  by_contra hc
  rw [tryJson_none_of_not_sw hc] at h
  exact Option.noConfusion h

lemma tryJson_eq_none_iff_tail {key l : List Char} (hsw : startsWithC key l = true) :
    (tryJson key l = none ↔ tryJsonTail (l.drop key.length) = none) := by
  unfold tryJson
  rw [if_pos hsw]
  cases tryJsonTail (l.drop key.length) <;> simp

/-- Transfer lemma: for two texts that both begin with a full JSON-fragment
match, prepending the same context `d` yields a match at the head of one
exactly when it yields one at the head of the other. -/
lemma tryJson_none_append_congr {key kmid : List Char}
    (hkey : key = '"' :: (kmid ++ ['"', ':']))
    (hkm0 : kmid ≠ []) (hkmnq : ∀ c ∈ kmid, nqChar c = true)
    (Hso : ∀ j, j < key.length → 0 < j → startsWithC (key.drop j) key = false)
    {m1 m2 : List Char} (d : List Char)
    (h1 : tryJson key m1 ≠ none) (h2 : tryJson key m2 ≠ none) :
    (tryJson key (d ++ m1) = none ↔ tryJson key (d ++ m2) = none) := by
  have hsw1 : startsWithC key m1 = true := by
    cases hm : tryJson key m1 with
    | none => exact absurd hm h1
    | some n => exact tryJson_sw hm
  have hsw2 : startsWithC key m2 = true := by
    cases hm : tryJson key m2 with
    | none => exact absurd hm h2
    | some n => exact tryJson_sw hm
  have hα1 : m1 = key ++ m1.drop key.length := startsWithC_eq_append hsw1
  have hα2 : m2 = key ++ m2.drop key.length := startsWithC_eq_append hsw2
  cases d with
  | nil =>
    simp only [List.nil_append]
    constructor
    · intro h; exact absurd h h1
    · intro h; exact absurd h h2
  | cons d0 ds =>
    by_cases hlen : key.length ≤ (d0 :: ds).length
    · have e1 : startsWithC key ((d0 :: ds) ++ m1) = startsWithC key (d0 :: ds) :=
        startsWithC_append_of_le _ hlen
      have e2 : startsWithC key ((d0 :: ds) ++ m2) = startsWithC key (d0 :: ds) :=
        startsWithC_append_of_le _ hlen
      cases hswd : startsWithC key (d0 :: ds) with
      | false =>
        rw [tryJson_none_of_not_sw (by rw [e1, hswd]; simp),
            tryJson_none_of_not_sw (by rw [e2, hswd]; simp)]
      | true =>
        rw [tryJson_eq_none_iff_tail (by rw [e1]; exact hswd),
            tryJson_eq_none_iff_tail (by rw [e2]; exact hswd),
            List.drop_append_of_le_length hlen, List.drop_append_of_le_length hlen]
        have hM : ∀ α : List Char, key ++ α = '"' :: (kmid ++ ('"' :: (':' :: α))) := by
          intro α
          rw [hkey]
          simp [List.cons_append, List.append_assoc]
        rw [show (d0 :: ds).drop key.length ++ m1
            = (d0 :: ds).drop key.length
                ++ ('"' :: (kmid ++ ('"' :: (':' :: m1.drop key.length)))) from by
          rw [← hM, ← hα1]]
        rw [show (d0 :: ds).drop key.length ++ m2
            = (d0 :: ds).drop key.length
                ++ ('"' :: (kmid ++ ('"' :: (':' :: m2.drop key.length)))) from by
          rw [← hM, ← hα2]]
        exact tryJsonTail_cong hkm0 hkmnq _ _ _
    · have hb : ∀ mm, startsWithC key mm = true →
          tryJson key ((d0 :: ds) ++ mm) = none := by
        intro mm hswm
        cases hsw : startsWithC key ((d0 :: ds) ++ mm) with
        | false => exact tryJson_none_of_not_sw (by rw [hsw]; simp)
        | true =>
          exfalso
          have hdrop := startsWithC_drop (d0 :: ds).length hsw
          rw [List.drop_left] at hdrop
          rw [startsWithC_eq_append hswm] at hdrop
          rw [startsWithC_append_of_le _
            (by simp only [List.length_drop]; omega)] at hdrop
          rw [Hso (d0 :: ds).length (by omega) (by simp)] at hdrop
          exact Bool.false_ne_true hdrop
      rw [hb m1 hsw1, hb m2 hsw2]

/-- The JSON replacement text itself matches the JSON-fragment regex, and the
match consumes exactly the replacement. -/
lemma tryJson_selfrepl {key V : List Char}
    (hV0 : V ≠ []) (hVnq : ∀ c ∈ V, nqChar c = true) (X : List Char) :
    tryJson key ((key ++ (' ' :: '"' :: (V ++ ['"']))) ++ X)
      = some (key.length + ((1 : Nat) + 1 + V.length + 1)) := by
  have hqnq : nqChar '"' = false := by decide
  have hT : (key ++ (' ' :: '"' :: (V ++ ['"']))) ++ X
      = key ++ (' ' :: '"' :: (V ++ '"' :: X)) := by
    simp [List.append_assoc]
  rw [hT]
  unfold tryJson
  rw [if_pos (startsWithC_append_self key _), List.drop_left]
  unfold tryJsonTail
  rw [show ((' ' :: '"' :: (V ++ '"' :: X) : List Char).dropWhile wsChar)
      = '"' :: (V ++ '"' :: X) from by
    simp [List.dropWhile_cons, show wsChar ' ' = true by decide,
      show wsChar '"' = false by decide]]
  rw [onQuote_quote]
  rw [show ((V ++ '"' :: X).takeWhile nqChar) = V from by
    rw [takeWhileAppendAll hVnq]
    simp [List.takeWhile_cons, hqnq]]
  rw [if_neg (fun hc => hV0 (List.length_eq_zero.mp hc))]
  rw [show ((V ++ '"' :: X).dropWhile nqChar) = '"' :: X from by
    rw [dropWhileAppendStop (by simp [List.takeWhile_cons, hqnq])]
    rw [List.dropWhile_eq_nil_iff.mpr (fun x hx => by simp [hVnq x hx])]
    simp]
  rw [onQuote_quote]
  rw [show ((' ' :: '"' :: (V ++ '"' :: X) : List Char).takeWhile wsChar).length = 1 from by
    simp [List.takeWhile_cons, show wsChar ' ' = true by decide,
      show wsChar '"' = false by decide]]

/-- The JSON-fragment replacement pass is idempotent: every fragment of its
output that still matches the regex is exactly an inserted replacement, which
the regex maps to itself. -/
lemma jsonScan_idem {key kmid V : List Char}
    (hkey : key = '"' :: (kmid ++ ['"', ':']))
    (hkm0 : kmid ≠ []) (hkmnq : ∀ c ∈ kmid, nqChar c = true)
    (hV0 : V ≠ []) (hVnq : ∀ c ∈ V, nqChar c = true)
    (Hso : ∀ j, j < key.length → 0 < j → startsWithC (key.drop j) key = false)
    {repl : List Char} (hrepl : repl = key ++ (' ' :: '"' :: (V ++ ['"']))) :
    ∀ (N : Nat) (l : List Char), l.length ≤ N →
      replaceAll (tryJson key) repl (replaceAll (tryJson key) repl l)
        = replaceAll (tryJson key) repl l := by
  intro N
  induction N with
  | zero =>
    intro l hl
    have hnil : l = [] := List.length_eq_zero.mp (Nat.le_zero.mp hl)
    subst hnil
    rfl
  | succ N ih =>
    intro l hl
    cases l with
    | nil => rfl
    | cons c cs =>
      cases h0 : tryJson key (c :: cs) with
      | some n =>
        have hn := tryJson_matcherOK key _ _ h0
        rw [replaceAll_eq_some (tryJson_matcherOK key) h0]
        have hself : tryJson key (repl ++ replaceAll (tryJson key) repl ((c :: cs).drop n))
            = some repl.length := by
          rw [hrepl, tryJson_selfrepl hV0 hVnq]
          congr 1
          simp [List.length_append]
          omega
        rw [replaceAll_eq_some (tryJson_matcherOK key) hself, List.drop_left]
        congr 1
        exact ih ((c :: cs).drop n)
          (by simp only [List.length_drop, List.length_cons] at *; omega)
      | none =>
        rw [replaceAll_cons_none h0]
        have hT : tryJson key (c :: replaceAll (tryJson key) repl cs) = none := by
          rcases replaceAll_shape (tryJson_matcherOK key) cs with hs | ⟨p, nn, hp, hs⟩
          · rw [hs]
            exact h0
          · rw [hs]
            have hsplit : c :: (cs.take p ++ repl
                  ++ replaceAll (tryJson key) repl (cs.drop (p + nn)))
                = (c :: cs.take p)
                  ++ (repl ++ replaceAll (tryJson key) repl (cs.drop (p + nn))) := by
              simp
            rw [hsplit]
            have hone : tryJson key (cs.drop p) ≠ none := by rw [hp]; simp
            have htwo : tryJson key
                (repl ++ replaceAll (tryJson key) repl (cs.drop (p + nn))) ≠ none := by
              rw [hrepl, tryJson_selfrepl hV0 hVnq]
              simp
            refine (tryJson_none_append_congr hkey hkm0 hkmnq Hso
              (c :: cs.take p) hone htwo).mp ?_
            rw [show (c :: cs.take p) ++ cs.drop p = c :: cs from by
              simp [List.take_append_drop]]
            exact h0
        rw [replaceAll_cons_none hT]
        congr 1
        exact ih cs (by simp only [List.length_cons] at hl; omega)

lemma maskAccessJson_idem (l : List Char) :
    maskAccessJson (maskAccessJson l) = maskAccessJson l := by
  unfold maskAccessJson
  exact jsonScan_idem
    (show accJsonKey = '"' :: ("access_token".toList ++ ['"', ':']) by decide)
    (by decide) (by decide) (by decide) (by decide) (by decide)
    (show accJsonRepl = accJsonKey ++ (' ' :: '"' :: ("[REDACTED]".toList ++ ['"'])) by decide)
    l.length l le_rfl

lemma maskAccessTok_id {l : List Char}
    (hf : ∀ j, tryTok accTokPat (l.drop j) = none) : maskAccessTok l = l := by
  unfold maskAccessTok
  exact replaceAll_of_none fun i => hf i

lemma maskRefreshTok_id {l : List Char}
    (hf : ∀ j, tryTok refTokPat (l.drop j) = none) : maskRefreshTok l = l := by
  unfold maskRefreshTok
  exact replaceAll_of_none fun i => hf i

/-- C9: the masking function is idempotent. -/
theorem C9_mask_idempotent :
    ∀ l : List Char, maskSensitiveData (maskSensitiveData l) = maskSensitiveData l := by
  intro l
  have hy := mask_eq_three l
  have hacc := mask_accFree l
  have href := mask_refFree l
  show maskRefreshJson (maskAccessJson (maskRefreshTok (maskAccessTok (maskSensitiveData l))))
      = maskSensitiveData l
  rw [maskAccessTok_id hacc, maskRefreshTok_id href, hy, maskAccessJson_idem]
  exact maskRefreshJson_id (hy ▸ href)

/-- The masked output is a fixed point of the access-JSON replacement: any
`"access_token": "..."` fragment still present in it is exactly the replaced
form, so re-running the access-JSON rule on it changes nothing. -/
lemma maskAccessJson_mask_fixed (l : List Char) :
    maskAccessJson (maskSensitiveData l) = maskSensitiveData l := by
  rw [mask_eq_three l]
  exact maskAccessJson_idem _

/-- C1 amended: for every input string, (i) the masked output contains no
match of the access-token prefix pattern and no match of the refresh-token
prefix pattern at any position — every token-prefix-shaped substring was
replaced; (ii) every JSON `"access_token": "..."` fragment is replaced by the
JSON redaction marker, in the sense that the masked output of every input is
a fixed point of the access-JSON replacement — any such fragment still
present is exactly the replaced form; (iii) JSON `"refresh_token": "..."`
fragments are never replaced by the refresh-JSON marker: the refresh-prefix
rule consumes the `refresh_token` key first, and the masked output of every
input contains no match of the refresh-JSON regex at any position.  The
remaining conjuncts exhibit, at specific concrete inputs, both prefix markers
present with both secrets absent, the access-JSON replacement, and the
refresh-JSON behaviour (key masked by the prefix rule; in this instance the
non-token-shaped quoted value survives). -/
theorem C1_amended_masking :
    (∀ (l : List Char) (j : Nat),
        tryTok accTokPat ((maskSensitiveData l).drop j) = none
        ∧ tryTok refTokPat ((maskSensitiveData l).drop j) = none
        ∧ tryJson refJsonKey ((maskSensitiveData l).drop j) = none)
    ∧ (∀ l : List Char, maskAccessJson (maskSensitiveData l) = maskSensitiveData l)
    ∧ maskSensitiveData "x sk-ant-secret123 y refresh_secret456 z".toList
        = "x [ACCESS_TOKEN_REDACTED] y [REFRESH_TOKEN_REDACTED] z".toList
    ∧ containsSub accessMarker
        (maskSensitiveData "x sk-ant-secret123 y refresh_secret456 z".toList) = true
    ∧ containsSub refreshMarker
        (maskSensitiveData "x sk-ant-secret123 y refresh_secret456 z".toList) = true
    ∧ containsSub "sk-ant-secret123".toList
        (maskSensitiveData "x sk-ant-secret123 y refresh_secret456 z".toList) = false
    ∧ containsSub "refresh_secret456".toList
        (maskSensitiveData "x sk-ant-secret123 y refresh_secret456 z".toList) = false
    ∧ maskSensitiveData "\"access_token\": \"abc\"".toList = accJsonRepl
    ∧ maskSensitiveData "\"refresh_token\": \"topsecret123\"".toList
        = "\"[REFRESH_TOKEN_REDACTED]\": \"topsecret123\"".toList :=
  ⟨fun l j => ⟨mask_accFree l j, mask_refFree l j,
      tryJson_refKey_none_of_refFree (mask_refFree l) j⟩,
   maskAccessJson_mask_fixed,
   by decide, by decide, by decide, by decide, by decide, by decide, by decide⟩
